import Mathlib

/-!
Verification of the LRU cache layer (`services/cache_service.py`).

The cache is embedded shallowly: `OrderedDict` becomes an association list
ordered oldest-first (Python's insertion order, with move-to-end on access),
the `ttl_data` dict another association list, and `datetime.now()` an explicit
integer timestamp argument.  Python `None` payloads are modelled by making the
stored value type `Option V`, so `none` is Python's `None`; `get`'s Python
return value (which conflates "absent" with a stored `None`) is then itself an
`Option V`.
-/

set_option maxRecDepth 100000

namespace CacheSpec

/-- Lookup in an association list (Python `d[key]` / `key in d`): the value of
the first binding whose key matches, if any. -/
def lookupKey {α : Type} : List (String × α) → String → Option α
  | [], _ => none
  | (k', v) :: rest, k => if k' = k then some v else lookupKey rest k

/-- Removal from an association list (Python `del d[key]`).  A Python dict
holds at most one binding per key; removal is modelled as dropping every
binding of that key, which coincides with dropping the unique one on every
state a `dict` can represent. -/
def removeKey {α : Type} : List (String × α) → String → List (String × α)
  | [], _ => []
  | (k', v) :: rest, k => if k' = k then removeKey rest k else (k', v) :: removeKey rest k

/-- The mutable state of `CacheService`: configuration plus the ordered map
(`cache`, oldest binding first) and the expiry bookkeeping (`ttl_data`,
absolute expiry instants). -/
structure CacheState (V : Type) where
  max_size : Nat
  default_ttl : Int
  cache : List (String × Option V)
  ttl_data : List (String × Int)
  deriving Repr, DecidableEq

/-- `CacheService.__init__(max_size, default_ttl)`: no validation is performed,
both maps start empty. -/
def mkCacheService (V : Type) (max_size : Nat) (default_ttl : Int) : CacheState V :=
  { max_size := max_size, default_ttl := default_ttl, cache := [], ttl_data := [] }

/-- `CacheService.get(key)` at instant `now`: absent keys return `none`; a
binding whose expiry has strictly passed is purged from both maps and `none`
is returned; a live binding is moved to the most-recently-used end and its
stored value returned. -/
def get {V : Type} (s : CacheState V) (key : String) (now : Int) :
    Option V × CacheState V :=
  match lookupKey s.cache key with
  | none => (none, s)
  | some value =>
    match lookupKey s.ttl_data key with
    | some expiry =>
      if now > expiry then
        (none, { s with cache := removeKey s.cache key,
                        ttl_data := removeKey s.ttl_data key })
      else
        (value, { s with cache := removeKey s.cache key ++ [(key, value)] })
    | none =>
      (value, { s with cache := removeKey s.cache key ++ [(key, value)] })

/-- The effective TTL of a `set` call: Python's `ttl = ttl or self.default_ttl`
falls back to the default both when no TTL is passed (`None`) and when `0` is
passed (`0` is falsy); any other value, negative included, is used as is. -/
def effectiveTTL {V : Type} (s : CacheState V) (ttl : Option Int) : Int :=
  match ttl with
  | none => s.default_ttl
  | some t => if t = 0 then s.default_ttl else t

/-- `CacheService.set(key, value, ttl)` at instant `now`: an existing binding
of `key` is removed first; otherwise, if the store is full, the oldest binding
is evicted together with its expiry record; the new binding is appended at the
most-recently-used end with expiry `now + ttl`.  (When `max_size = 0` and the
store is empty CPython would raise `StopIteration` on `next(iter({}))`; that
branch is unreachable for the positive capacities the spec admits and is
modelled as a no-op removal.) -/
def set {V : Type} (s : CacheState V) (key : String) (value : Option V)
    (ttl : Option Int) (now : Int) : CacheState V :=
  let t := effectiveTTL s ttl
  let s1 :=
    if (lookupKey s.cache key).isSome then
      { s with cache := removeKey s.cache key }
    else if s.cache.length ≥ s.max_size then
      match s.cache with
      | [] => s
      | (oldest, _) :: _ =>
        { s with cache := removeKey s.cache oldest,
                 ttl_data := removeKey s.ttl_data oldest }
    else s
  { s1 with cache := s1.cache ++ [(key, value)],
            ttl_data := removeKey s1.ttl_data key ++ [(key, now + t)] }

/-- `CacheService.delete(key)`: removes the binding and its expiry record if
present, reporting whether a removal occurred. -/
def delete {V : Type} (s : CacheState V) (key : String) : Bool × CacheState V :=
  if (lookupKey s.cache key).isSome then
    (true, { s with cache := removeKey s.cache key,
                    ttl_data := removeKey s.ttl_data key })
  else (false, s)

/-- Outcome of `get_or_set`: the Python return value (or the supplier's
propagated failure), the state afterwards, and how many times the supplier was
invoked. -/
structure GosResult (V E : Type) where
  result : Except E (Option V)
  state : CacheState V
  calls : Nat
  deriving Repr

/-- `CacheService.get_or_set(key, fetch_func, ttl)`: a `get` at instant
`now1`; a non-`None` hit is returned without touching the supplier; otherwise
the supplier runs once (its outcome is the pre-determined `fetch`), a failure
propagates with no `set`, and a success is stored via `set` at instant `now2`
and returned. -/
def get_or_set {V E : Type} (s : CacheState V) (key : String)
    (fetch : Except E (Option V)) (ttl : Option Int) (now1 now2 : Int) :
    GosResult V E :=
  match get s key now1 with
  | (some v, s1) => { result := Except.ok (some v), state := s1, calls := 0 }
  | (none, s1) =>
    match fetch with
    | Except.error e => { result := Except.error e, state := s1, calls := 1 }
    | Except.ok v => { result := Except.ok v, state := set s1 key v ttl now2, calls := 1 }

/-! ### Key derivation: `hashlib.md5` over `json.dumps(kwargs, sort_keys=True)`

32-bit machine arithmetic is modelled on `Nat` with explicit reduction
modulo `2 ^ 32`. -/

/-- `2 ^ 32`, the modulus of MD5's 32-bit arithmetic. -/
def w32 : Nat := 4294967296

/-- 32-bit left rotation. -/
def rotl32 (x n : Nat) : Nat :=
  (((x % w32) <<< n) ||| ((x % w32) >>> (32 - n))) % w32

/-- Round function of rounds 0–15: `(B and C) or ((not B) and D)`. -/
def md5F (b c d : Nat) : Nat := (b &&& c) ||| ((b ^^^ 4294967295) &&& d)

/-- Round function of rounds 16–31: `(D and B) or ((not D) and C)`. -/
def md5G (b c d : Nat) : Nat := (d &&& b) ||| ((d ^^^ 4294967295) &&& c)

/-- Round function of rounds 32–47: `B xor C xor D`. -/
def md5H (b c d : Nat) : Nat := b ^^^ c ^^^ d

/-- Round function of rounds 48–63: `C xor (B or (not D))`. -/
def md5I (b c d : Nat) : Nat := c ^^^ (b ||| (d ^^^ 4294967295))

/-- The 64 MD5 sine-derived constants `K`. -/
def md5K : List Nat :=
  [0xd76aa478, 0xe8c7b756, 0x242070db, 0xc1bdceee,
   0xf57c0faf, 0x4787c62a, 0xa8304613, 0xfd469501,
   0x698098d8, 0x8b44f7af, 0xffff5bb1, 0x895cd7be,
   0x6b901122, 0xfd987193, 0xa679438e, 0x49b40821,
   0xf61e2562, 0xc040b340, 0x265e5a51, 0xe9b6c7aa,
   0xd62f105d, 0x02441453, 0xd8a1e681, 0xe7d3fbc8,
   0x21e1cde6, 0xc33707d6, 0xf4d50d87, 0x455a14ed,
   0xa9e3e905, 0xfcefa3f8, 0x676f02d9, 0x8d2a4c8a,
   0xfffa3942, 0x8771f681, 0x6d9d6122, 0xfde5380c,
   0xa4beea44, 0x4bdecfa9, 0xf6bb4b60, 0xbebfbc70,
   0x289b7ec6, 0xeaa127fa, 0xd4ef3085, 0x04881d05,
   0xd9d4d039, 0xe6db99e5, 0x1fa27cf8, 0xc4ac5665,
   0xf4292244, 0x432aff97, 0xab9423a7, 0xfc93a039,
   0x655b59c3, 0x8f0ccc92, 0xffeff47d, 0x85845dd1,
   0x6fa87e4f, 0xfe2ce6e0, 0xa3014314, 0x4e0811a1,
   0xf7537e82, 0xbd3af235, 0x2ad7d2bb, 0xeb86d391]

/-- The 64 MD5 per-round shift amounts `s`. -/
def md5S : List Nat :=
  [7, 12, 17, 22, 7, 12, 17, 22, 7, 12, 17, 22, 7, 12, 17, 22,
   5, 9, 14, 20, 5, 9, 14, 20, 5, 9, 14, 20, 5, 9, 14, 20,
   4, 11, 16, 23, 4, 11, 16, 23, 4, 11, 16, 23, 4, 11, 16, 23,
   6, 10, 15, 21, 6, 10, 15, 21, 6, 10, 15, 21, 6, 10, 15, 21]

/-- One MD5 operation: round `i` over message words `M` on state `(A,B,C,D)`. -/
def md5step (M : List Nat) (st : Nat × Nat × Nat × Nat) (i : Nat) :
    Nat × Nat × Nat × Nat :=
  let a := st.1
  let b := st.2.1
  let c := st.2.2.1
  let d := st.2.2.2
  let fg : Nat × Nat :=
    if i < 16 then (md5F b c d, i)
    else if i < 32 then (md5G b c d, (5 * i + 1) % 16)
    else if i < 48 then (md5H b c d, (3 * i + 5) % 16)
    else (md5I b c d, (7 * i) % 16)
  let f := (fg.1 + a + md5K.getD i 0 + M.getD fg.2 0) % w32
  (d, (b + rotl32 f (md5S.getD i 0)) % w32, b, c)

/-- Little-endian 32-bit word `j` of a 64-byte chunk. -/
def leWord (bs : List Nat) (j : Nat) : Nat :=
  bs.getD (4 * j) 0 + 256 * bs.getD (4 * j + 1) 0 +
    65536 * bs.getD (4 * j + 2) 0 + 16777216 * bs.getD (4 * j + 3) 0

/-- One 64-byte MD5 chunk folded into the running state. -/
def processBlock (st : Nat × Nat × Nat × Nat) (bs : List Nat) :
    Nat × Nat × Nat × Nat :=
  let M := (List.range 16).map (leWord bs)
  let r := (List.range 64).foldl (md5step M) st
  ((st.1 + r.1) % w32, (st.2.1 + r.2.1) % w32,
   (st.2.2.1 + r.2.2.1) % w32, (st.2.2.2 + r.2.2.2) % w32)

/-- All chunks of the padded message, consumed 64 bytes at a time (the fuel is
an upper bound on the number of chunks, which keeps the recursion structural). -/
def md5blocks : Nat → (Nat × Nat × Nat × Nat) → List Nat → Nat × Nat × Nat × Nat
  | _, st, [] => st
  | 0, st, _ => st
  | fuel + 1, st, bs => md5blocks fuel (processBlock st (bs.take 64)) (bs.drop 64)

/-- The 8 little-endian bytes of the message bit length (`8 * n mod 2 ^ 64`). -/
def lengthBytes (n : Nat) : List Nat :=
  (List.range 8).map fun i => ((8 * n) >>> (8 * i)) % 256

/-- MD5 padding: a `0x80` byte, zeros to 56 mod 64, then the 64-bit length. -/
def md5pad (msg : List Nat) : List Nat :=
  msg ++ 128 :: (List.replicate ((119 - msg.length % 64) % 64) 0 ++ lengthBytes msg.length)

/-- The 4 little-endian bytes of a 32-bit word. -/
def wordLEBytes (x : Nat) : List Nat :=
  [x % 256, x / 256 % 256, x / 65536 % 256, x / 16777216 % 256]

/-- The 16-byte MD5 digest of a byte message. -/
def md5bytes (msg : List Nat) : List Nat :=
  let p := md5pad msg
  let r := md5blocks p.length (0x67452301, 0xefcdab89, 0x98badcfe, 0x10325476) p
  wordLEBytes r.1 ++ wordLEBytes r.2.1 ++ wordLEBytes r.2.2.1 ++ wordLEBytes r.2.2.2

/-- A hexadecimal digit character. -/
def hexChar (n : Nat) : Char := "0123456789abcdef".data.getD (n % 16) (Char.ofNat 48)

/-- Lowercase hex rendering of a byte list (`hexdigest`). -/
def bytesToHex (bs : List Nat) : String :=
  String.mk (bs.foldr (fun b acc => hexChar (b / 16) :: hexChar b :: acc) [])

/-- UTF-8 encoding of one character (`str.encode()`). -/
def utf8Char (c : Char) : List Nat :=
  let n := c.toNat
  if n < 128 then [n]
  else if n < 2048 then [192 + n / 64, 128 + n % 64]
  else if n < 65536 then [224 + n / 4096, 128 + n / 64 % 64, 128 + n % 64]
  else [240 + n / 262144, 128 + n / 4096 % 64, 128 + n / 64 % 64, 128 + n % 64]

/-- UTF-8 encoding of a string (`str.encode()`). -/
def utf8Encode (s : String) : List Nat :=
  s.data.foldr (fun c acc => utf8Char c ++ acc) []

/-- `hashlib.md5(s.encode()).hexdigest()`. -/
def md5hex (s : String) : String := bytesToHex (md5bytes (utf8Encode s))

/-! ### `json.dumps(kwargs, sort_keys=True)` -/

/-- A JSON-serialisable keyword-argument value; the call sites pass strings
and integers. -/
inductive JValue where
  | str (s : String)
  | int (n : Int)
  deriving Repr, DecidableEq

/-- Four hex digits (for `\uXXXX` escapes). -/
def hex4 (n : Nat) : List Char :=
  [hexChar (n / 4096), hexChar (n / 256), hexChar (n / 16), hexChar n]

/-- `json.dumps` escaping of one character with the default `ensure_ascii`:
quote and backslash are backslash-escaped, the five short control escapes
apply, every other character outside printable ASCII becomes `\uXXXX`
(a surrogate pair beyond the BMP). -/
def jsonEscapeChar (c : Char) : List Char :=
  let n := c.toNat
  if n = 34 then [Char.ofNat 92, Char.ofNat 34]
  else if n = 92 then [Char.ofNat 92, Char.ofNat 92]
  else if n = 8 then [Char.ofNat 92, 'b']
  else if n = 9 then [Char.ofNat 92, 't']
  else if n = 10 then [Char.ofNat 92, 'n']
  else if n = 12 then [Char.ofNat 92, 'f']
  else if n = 13 then [Char.ofNat 92, 'r']
  else if n < 32 then Char.ofNat 92 :: 'u' :: hex4 n
  else if n < 127 then [c]
  else if n < 65536 then Char.ofNat 92 :: 'u' :: hex4 n
  else
    (Char.ofNat 92 :: 'u' :: hex4 (55296 + (n - 65536) / 1024)) ++
      (Char.ofNat 92 :: 'u' :: hex4 (56320 + (n - 65536) % 1024))

/-- A JSON string literal: quoted, characters escaped. -/
def jsonString (s : String) : List Char :=
  Char.ofNat 34 :: s.data.foldr (fun c acc => jsonEscapeChar c ++ acc) [Char.ofNat 34]

/-- Rendering of one value. -/
def renderJValue : JValue → List Char
  | JValue.str s => jsonString s
  | JValue.int n => (toString n).data

/-- The members of a JSON object, joined with `json.dumps`'s default
separators (`", "` and `": "`). -/
def jsonMembers : List (String × JValue) → List Char
  | [] => []
  | [(k, v)] => jsonString k ++ ':' :: ' ' :: renderJValue v
  | (k, v) :: rest => jsonString k ++ ':' :: ' ' :: renderJValue v ++ ',' :: ' ' :: jsonMembers rest

/-- Lexicographic-by-code-point comparison of character lists: exactly the
order Python's `sorted` uses on `str`. -/
def charListLE : List Char → List Char → Bool
  | [], _ => true
  | _ :: _, [] => false
  | c1 :: r1, c2 :: r2 =>
    if c1.toNat < c2.toNat then true
    else if c2.toNat < c1.toNat then false
    else charListLE r1 r2

/-- Key order used by `sort_keys=True`: lexicographic by code point on the
member names. -/
def keyLE (a b : String × JValue) : Prop := charListLE a.1.data b.1.data = true

instance : DecidableRel keyLE := fun a b =>
  inferInstanceAs (Decidable (charListLE a.1.data b.1.data = true))

/-- Strict key order: at most one member per name makes sorted member lists
strictly increasing, which pins the sorted order down uniquely. -/
def keyLT (a b : String × JValue) : Prop := keyLE a b ∧ a.1 ≠ b.1

/-- `json.dumps(kwargs, sort_keys=True)`: members sorted by key, wrapped in
braces. -/
def jsonDumpsSorted (kwargs : List (String × JValue)) : String :=
  String.mk (Char.ofNat 123 :: (jsonMembers (kwargs.insertionSort keyLE) ++ [Char.ofNat 125]))

/-- `CacheService._generate_key(prefix, **kwargs)`: the MD5 hexdigest of
`f"{prefix}:{json.dumps(kwargs, sort_keys=True)}"` (the namespace argument is
named `ns` here because `prefix` is a Lean keyword). -/
def generate_key (ns : String) (kwargs : List (String × JValue)) : String :=
  md5hex (ns ++ ":" ++ jsonDumpsSorted kwargs)

/-- Python `key.startswith(p)`. -/
def strStartsWith (s p : String) : Bool := p.data.isPrefixOf s.data

/-- `CacheService.cache_book_search(query, category, author, status,
fetch_func)`: `get_or_set` under namespace `"book_search"` with a fixed
3-minute TTL. -/
def cache_book_search {V E : Type} (s : CacheState V)
    (query category author status : String) (fetch : Except E (Option V))
    (now1 now2 : Int) : GosResult V E :=
  get_or_set s
    (generate_key "book_search"
      [("query", JValue.str query), ("category", JValue.str category),
       ("author", JValue.str author), ("status", JValue.str status)])
    fetch (some 180) now1 now2

/-- `CacheService.cache_book_data(book_id, fetch_func)`: `get_or_set` under
namespace `"book"` with a fixed 5-minute TTL. -/
def cache_book_data {V E : Type} (s : CacheState V) (book_id : Int)
    (fetch : Except E (Option V)) (now1 now2 : Int) : GosResult V E :=
  get_or_set s (generate_key "book" [("id", JValue.int book_id)]) fetch (some 300) now1 now2

/-- `CacheService.invalidate_book_cache(book_id)`: deletes the exact
`"book"`-namespace key of `book_id`, then removes every cached key that
*literally* starts with the string `"book_search"` (together with its expiry
record, when one exists). -/
def invalidate_book_cache {V : Type} (s : CacheState V) (book_id : Int) : CacheState V :=
  let book_key := generate_key "book" [("id", JValue.int book_id)]
  let s1 := (delete s book_key).2
  let keys_to_delete := (s1.cache.map Prod.fst).filter (fun k => strStartsWith k "book_search")
  keys_to_delete.foldl
    (fun st k => { st with cache := removeKey st.cache k,
                           ttl_data := removeKey st.ttl_data k }) s1

/-- A sequence of `set` calls, all at instant `now` with the default TTL. -/
def setSeq {V : Type} (s : CacheState V) (items : List (String × Option V))
    (now : Int) : CacheState V :=
  items.foldl (fun st p => set st p.1 p.2 none now) s

/-- Test fixture, the LRU scenario of spec §8: capacity 3, `set A`, `set B`,
`set C`, `get A`, `set D`, all at instant 0 against a 300-second default
TTL. -/
def lruScenarioState : CacheState Nat :=
  set ((get (set (set (set (mkCacheService Nat 3 300) "A" (some 1) none 0)
    "B" (some 2) none 0) "C" (some 3) none 0) "A" 0).2) "D" (some 4) none 0

/-- Test fixture, the derived key of the spec's prefix-invalidation failing
input: namespace `"book_search"` with query `"a"`, category `"fiction"`,
author `"x"`, status `"available"`. -/
def c1SearchKey : String :=
  generate_key "book_search"
    [("query", JValue.str "a"), ("category", JValue.str "fiction"),
     ("author", JValue.str "x"), ("status", JValue.str "available")]

/-- Test fixture: the state after caching one search result through
`cache_book_search` on an empty capacity-10 cache. -/
def c1Populated : CacheState Nat :=
  (cache_book_search (V := Nat) (E := Unit) (mkCacheService Nat 10 300)
    "a" "fiction" "x" "available" (Except.ok (some 7)) 0 0).state

/-- Test fixture: `c1Populated` after `invalidate_book_cache(1)`. -/
def c1Invalidated : CacheState Nat := invalidate_book_cache c1Populated 1

end CacheSpec

namespace CacheSpec

-- Known MD5 test vectors (RFC 1321) pin the digest implementation down.
example : md5hex "" = "d41d8cd98f00b204e9800998ecf8427e" := by decide

example : md5hex "abc" = "900150983cd24fb0d6963f7d28e17f72" := by decide

-- The serialisation matches CPython's `json.dumps(..., sort_keys=True)`.
example :
    jsonDumpsSorted
      [("query", JValue.str "a"), ("category", JValue.str "fiction"),
       ("author", JValue.str "x"), ("status", JValue.str "available")] =
    "\x7b\"author\": \"x\", \"category\": \"fiction\", \"query\": \"a\", \"status\": \"available\"\x7d" := by
  decide

example :
    generate_key "book" [("id", JValue.int 1)] = "4ed37b937be4a78699eada194aa4038b" := by
  decide

/-! ### Association-list lemmas -/

theorem lookupKey_removeKey_self {α : Type} (l : List (String × α)) (k : String) :
    lookupKey (removeKey l k) k = none := by
  induction l with
  | nil => rfl
  | cons p rest ih =>
    obtain ⟨k', v⟩ := p
    by_cases h : k' = k
    · simpa [removeKey, h] using ih
    · simpa [removeKey, lookupKey, h] using ih

theorem lookupKey_removeKey_ne {α : Type} (l : List (String × α)) (k k' : String)
    (h : k' ≠ k) : lookupKey (removeKey l k) k' = lookupKey l k' := by
  induction l with
  | nil => rfl
  | cons p rest ih =>
    obtain ⟨k0, v⟩ := p
    by_cases h0 : k0 = k
    · subst h0
      simp [removeKey, lookupKey, Ne.symm h, ih]
    · by_cases h1 : k0 = k'
      · simp [removeKey, lookupKey, h0, h1, h]
      · simp [removeKey, lookupKey, h0, h1, ih]

theorem lookupKey_eq_none_iff {α : Type} (l : List (String × α)) (k : String) :
    lookupKey l k = none ↔ k ∉ l.map Prod.fst := by
  induction l with
  | nil => simp [lookupKey]
  | cons p rest ih =>
    obtain ⟨k0, v⟩ := p
    by_cases h0 : k0 = k
    · simp [lookupKey, h0]
    · rw [List.map_cons]
      simp only [lookupKey, h0, if_false, List.mem_cons]
      rw [ih]
      have hne : ¬k = k0 := fun hc => h0 hc.symm
      tauto

theorem removeKey_eq_of_not_mem {α : Type} (l : List (String × α)) (k : String)
    (h : k ∉ l.map Prod.fst) : removeKey l k = l := by
  induction l with
  | nil => rfl
  | cons p rest ih =>
    obtain ⟨k0, v⟩ := p
    simp only [List.map_cons, List.mem_cons] at h
    push_neg at h
    have hne : ¬k0 = k := fun hc => h.1 hc.symm
    simp [removeKey, hne, ih h.2]

theorem lookupKey_append_of_none {α : Type} (l1 l2 : List (String × α)) (k : String)
    (h : lookupKey l1 k = none) : lookupKey (l1 ++ l2) k = lookupKey l2 k := by
  induction l1 with
  | nil => rfl
  | cons p rest ih =>
    obtain ⟨k0, v⟩ := p
    by_cases h0 : k0 = k
    · simp [lookupKey, h0] at h
    · simp only [lookupKey, h0, if_false] at h ⊢
      exact ih h

theorem lookupKey_append_of_some {α : Type} (l1 l2 : List (String × α)) (k : String)
    (v : α) (h : lookupKey l1 k = some v) : lookupKey (l1 ++ l2) k = some v := by
  induction l1 with
  | nil => simp [lookupKey] at h
  | cons p rest ih =>
    obtain ⟨k0, w⟩ := p
    by_cases h0 : k0 = k
    · simp only [lookupKey, h0, if_true] at h ⊢
      exact h
    · simp only [lookupKey, h0, if_false] at h ⊢
      exact ih h

theorem lookupKey_concat_self {α : Type} (l : List (String × α)) (k : String) (v : α) :
    lookupKey (removeKey l k ++ [(k, v)]) k = some v := by
  rw [lookupKey_append_of_none _ _ _ (lookupKey_removeKey_self l k)]
  simp [lookupKey]

theorem length_removeKey_le {α : Type} (l : List (String × α)) (k : String) :
    (removeKey l k).length ≤ l.length := by
  induction l with
  | nil => simp [removeKey]
  | cons p rest ih =>
    obtain ⟨k0, v⟩ := p
    by_cases h0 : k0 = k
    · simp only [removeKey, h0, if_true, List.length_cons]
      omega
    · simp only [removeKey, h0, if_false, List.length_cons]
      omega

theorem length_removeKey_lt {α : Type} (l : List (String × α)) (k : String)
    (h : (lookupKey l k).isSome) : (removeKey l k).length < l.length := by
  induction l with
  | nil => simp [lookupKey] at h
  | cons p rest ih =>
    obtain ⟨k0, v⟩ := p
    by_cases h0 : k0 = k
    · simp only [removeKey, h0, if_true, List.length_cons]
      have := length_removeKey_le rest k
      omega
    · simp only [lookupKey, h0, if_false] at h
      simp only [removeKey, h0, if_false, List.length_cons]
      exact Nat.succ_lt_succ (ih h)

theorem map_fst_removeKey_sublist {α : Type} (l : List (String × α)) (k : String) :
    ((removeKey l k).map Prod.fst).Sublist (l.map Prod.fst) := by
  induction l with
  | nil => simp [removeKey]
  | cons p rest ih =>
    obtain ⟨k0, v⟩ := p
    by_cases h0 : k0 = k
    · simp only [removeKey, h0, if_true, List.map_cons]
      exact ih.trans (List.sublist_cons_self _ _)
    · simpa [removeKey, h0] using ih.cons₂ k0

theorem lookupKey_concat_ne {α : Type} (l : List (String × α)) (key k' : String)
    (v : α) (h : k' ≠ key) :
    lookupKey (l ++ [(key, v)]) k' = lookupKey l k' := by
  cases hl : lookupKey l k' with
  | some w => exact lookupKey_append_of_some _ _ _ _ hl
  | none =>
    rw [lookupKey_append_of_none _ _ _ hl]
    simp [lookupKey, Ne.symm h]

/-! ### Shape lemmas for `set` -/

theorem set_present_eq {V : Type} (s : CacheState V) (key : String) (v : Option V)
    (ttl : Option Int) (now : Int) (h : (lookupKey s.cache key).isSome) :
    set s key v ttl now =
      { s with cache := removeKey s.cache key ++ [(key, v)],
               ttl_data := removeKey s.ttl_data key ++
                 [(key, now + effectiveTTL s ttl)] } := by
  simp only [set]
  rw [if_pos h]

theorem set_absent_not_full_eq {V : Type} (s : CacheState V) (key : String)
    (v : Option V) (ttl : Option Int) (now : Int)
    (h : lookupKey s.cache key = none) (h2 : s.cache.length < s.max_size) :
    set s key v ttl now =
      { s with cache := s.cache ++ [(key, v)],
               ttl_data := removeKey s.ttl_data key ++
                 [(key, now + effectiveTTL s ttl)] } := by
  simp only [set]
  rw [if_neg (by simp [h]), if_neg (by omega)]

theorem set_absent_full_eq {V : Type} (s : CacheState V) (key : String)
    (v : Option V) (ttl : Option Int) (now : Int) (k0 : String) (v0 : Option V)
    (rest : List (String × Option V)) (h : lookupKey s.cache key = none)
    (h2 : s.cache.length ≥ s.max_size) (hc : s.cache = (k0, v0) :: rest) :
    set s key v ttl now =
      { s with cache := removeKey s.cache k0 ++ [(key, v)],
               ttl_data := removeKey (removeKey s.ttl_data k0) key ++
                 [(key, now + effectiveTTL s ttl)] } := by
  simp only [set]
  rw [if_neg (by simp [h]), if_pos h2, hc]

theorem set_max_size {V : Type} (s : CacheState V) (key : String) (v : Option V)
    (ttl : Option Int) (now : Int) :
    (set s key v ttl now).max_size = s.max_size := by
  simp only [set]
  split
  · rfl
  · split
    · split <;> rfl
    · rfl

theorem set_lookup_self {V : Type} (s : CacheState V) (key : String) (v : Option V)
    (ttl : Option Int) (now : Int) :
    lookupKey (set s key v ttl now).cache key = some v ∧
    lookupKey (set s key v ttl now).ttl_data key = some (now + effectiveTTL s ttl) := by
  simp only [set]
  constructor
  · split
    · exact lookupKey_concat_self _ _ _
    · rename_i hp
      have habs : lookupKey s.cache key = none := by
        cases hl : lookupKey s.cache key with
        | none => rfl
        | some w => simp [hl] at hp
      split
      · split
        · rw [lookupKey_append_of_none _ _ _ habs]
          simp [lookupKey]
        · rename_i oldest v0 rest' hc
          rw [lookupKey_append_of_none]
          · simp [lookupKey]
          · by_cases he : key = oldest
            · rw [he]; exact lookupKey_removeKey_self _ _
            · rw [lookupKey_removeKey_ne _ _ _ he]; exact habs
      · rw [lookupKey_append_of_none _ _ _ habs]
        simp [lookupKey]
  · split
    · exact lookupKey_concat_self _ _ _
    · split
      · split <;> exact lookupKey_concat_self _ _ _
      · exact lookupKey_concat_self _ _ _

theorem set_length_le {V : Type} (s : CacheState V) (key : String) (v : Option V)
    (ttl : Option Int) (now : Int) (hpos : 0 < s.max_size)
    (hle : s.cache.length ≤ s.max_size) :
    (set s key v ttl now).cache.length ≤ s.max_size := by
  cases hp : lookupKey s.cache key with
  | some w =>
    rw [set_present_eq s key v ttl now (by rw [hp]; rfl)]
    have := length_removeKey_lt s.cache key (by rw [hp]; rfl)
    simp only [List.length_append, List.length_cons, List.length_nil]
    omega
  | none =>
    by_cases h2 : s.cache.length < s.max_size
    · rw [set_absent_not_full_eq s key v ttl now hp h2]
      simp only [List.length_append, List.length_cons, List.length_nil]
      omega
    · have hge : s.cache.length ≥ s.max_size := by omega
      have hlen : 0 < s.cache.length := by omega
      cases hc : s.cache with
      | nil => rw [hc] at hlen; simp at hlen
      | cons p rest =>
        obtain ⟨k0, v0⟩ := p
        rw [set_absent_full_eq s key v ttl now k0 v0 rest hp hge hc]
        have hsome : (lookupKey s.cache k0).isSome := by
          rw [hc]; simp [lookupKey]
        have := length_removeKey_lt s.cache k0 hsome
        simp only [List.length_append, List.length_cons, List.length_nil]
        omega

theorem set_fresh_length {V : Type} (s : CacheState V) (key : String) (v : Option V)
    (ttl : Option Int) (now : Int) (h : lookupKey s.cache key = none)
    (hpos : 0 < s.max_size) (hle : s.cache.length ≤ s.max_size)
    (hnd : (s.cache.map Prod.fst).Nodup) :
    (set s key v ttl now).cache.length = min (s.cache.length + 1) s.max_size := by
  by_cases h2 : s.cache.length < s.max_size
  · rw [set_absent_not_full_eq s key v ttl now h h2]
    simp only [List.length_append, List.length_cons, List.length_nil]
    omega
  · have hge : s.cache.length ≥ s.max_size := by omega
    have heq : s.cache.length = s.max_size := by omega
    have hlen : 0 < s.cache.length := by omega
    cases hc : s.cache with
    | nil => rw [hc] at hlen; simp at hlen
    | cons p rest =>
      obtain ⟨k0, v0⟩ := p
      rw [set_absent_full_eq s key v ttl now k0 v0 rest h hge hc]
      have hnotmem : k0 ∉ rest.map Prod.fst := by
        rw [hc] at hnd
        simp only [List.map_cons] at hnd
        exact (List.nodup_cons.mp hnd).1
      have hrem : removeKey s.cache k0 = rest := by
        rw [hc]
        simp only [removeKey, if_pos rfl]
        exact removeKey_eq_of_not_mem rest k0 hnotmem
      rw [hrem]
      have : s.cache.length = rest.length + 1 := by rw [hc]; rfl
      simp only [List.length_append, List.length_cons, List.length_nil]
      omega

theorem set_fresh_keys_nodup {V : Type} (s : CacheState V) (key : String)
    (v : Option V) (ttl : Option Int) (now : Int)
    (h : lookupKey s.cache key = none) (hnd : (s.cache.map Prod.fst).Nodup) :
    ((set s key v ttl now).cache.map Prod.fst).Nodup := by
  have hmem : key ∉ s.cache.map Prod.fst := (lookupKey_eq_none_iff _ _).mp h
  have base : ∀ l : List (String × Option V),
      (l.map Prod.fst).Nodup → key ∉ l.map Prod.fst →
      ((l ++ [(key, v)]).map Prod.fst).Nodup := by
    intro l hl hk
    rw [List.map_append]
    rw [List.nodup_append]
    refine ⟨hl, by simp, ?_⟩
    intro a ha hb
    simp only [List.map_cons, List.map_nil, List.mem_cons, List.not_mem_nil, or_false] at hb
    exact hk (hb ▸ ha)
  simp only [set]
  rw [if_neg (by simp [h])]
  split
  · split
    · exact base _ hnd hmem
    · rename_i oldest v0 rest' hc
      have hsub := map_fst_removeKey_sublist s.cache oldest
      exact base _ (hnd.sublist hsub)
        (fun hmem' => hmem (hsub.mem hmem'))
  · exact base _ hnd hmem

theorem set_preserves_absent {V : Type} (s : CacheState V) (key k' : String)
    (v : Option V) (ttl : Option Int) (now : Int)
    (h1 : k' ≠ key) (h2 : lookupKey s.cache k' = none) :
    lookupKey (set s key v ttl now).cache k' = none := by
  simp only [set]
  have hsingle : lookupKey [(key, v)] k' = none := by
    simp [lookupKey, Ne.symm h1]
  split
  · rw [lookupKey_append_of_none, hsingle]
    by_cases he : k' = key
    · rw [he]; exact lookupKey_removeKey_self _ _
    · rw [lookupKey_removeKey_ne _ _ _ he]; exact h2
  · split
    · split
      · rw [lookupKey_append_of_none _ _ _ h2, hsingle]
      · rename_i oldest v0 tail hc
        rw [lookupKey_append_of_none, hsingle]
        by_cases he : k' = oldest
        · rw [he]; exact lookupKey_removeKey_self _ _
        · rw [lookupKey_removeKey_ne _ _ _ he]; exact h2
    · rw [lookupKey_append_of_none _ _ _ h2, hsingle]

theorem setSeq_nil {V : Type} (s : CacheState V) (now : Int) : setSeq s [] now = s := rfl

theorem setSeq_cons {V : Type} (s : CacheState V) (p : String × Option V)
    (rest : List (String × Option V)) (now : Int) :
    setSeq s (p :: rest) now = setSeq (set s p.1 p.2 none now) rest now := rfl

theorem setSeq_fresh_length {V : Type} (now : Int) :
    ∀ (items : List (String × Option V)) (s : CacheState V),
      0 < s.max_size → s.cache.length ≤ s.max_size →
      (s.cache.map Prod.fst).Nodup →
      (∀ p ∈ items, lookupKey s.cache p.1 = none) →
      (items.map Prod.fst).Nodup →
      (setSeq s items now).cache.length = min (s.cache.length + items.length) s.max_size
  | [], s, hpos, hle, _, _, _ => by
    rw [setSeq_nil]
    simp only [List.length_nil]
    omega
  | (k, v) :: rest, s, hpos, hle, hnd, hfresh, hind => by
    rw [setSeq_cons]
    have hk : lookupKey s.cache k = none := hfresh (k, v) (List.mem_cons_self _ _)
    have hmax := set_max_size s k v none now
    have hlen := set_fresh_length s k v none now hk hpos hle hnd
    have hknotin : k ∉ rest.map Prod.fst := by
      simp only [List.map_cons] at hind
      exact (List.nodup_cons.mp hind).1
    have ih := setSeq_fresh_length now rest (set s k v none now)
      (by rw [hmax]; exact hpos)
      (by rw [hmax, hlen]; omega)
      (set_fresh_keys_nodup s k v none now hk hnd)
      (by
        intro p hp
        refine set_preserves_absent s k p.1 v none now ?_ (hfresh p (List.mem_cons_of_mem _ hp))
        intro hc
        exact hknotin (hc ▸ List.mem_map_of_mem Prod.fst hp))
      ((List.nodup_cons.mp (by simpa using hind)).2)
    rw [ih, hmax, hlen]
    simp only [List.length_cons]
    omega

/-! ### The key comparison is a total order, so `sort_keys` is canonical -/

theorem charListLE_total : ∀ a b : List Char, charListLE a b = true ∨ charListLE b a = true
  | [], _ => Or.inl rfl
  | _ :: _, [] => Or.inr rfl
  | c1 :: r1, c2 :: r2 => by
    by_cases h1 : c1.toNat < c2.toNat
    · left; simp [charListLE, h1]
    · by_cases h2 : c2.toNat < c1.toNat
      · right; simp [charListLE, h2]
      · rcases charListLE_total r1 r2 with h | h
        · left; simp [charListLE, h1, h2, h]
        · right; simp [charListLE, h1, h2, h]

theorem charListLE_trans : ∀ a b c : List Char,
    charListLE a b = true → charListLE b c = true → charListLE a c = true
  | [], _, _, _, _ => rfl
  | _ :: _, [], _, hab, _ => by simp [charListLE] at hab
  | _ :: _, _ :: _, [], _, hbc => by simp [charListLE] at hbc
  | a1 :: ra, b1 :: rb, c1 :: rc, hab, hbc => by
    by_cases hab1 : a1.toNat < b1.toNat
    · by_cases hbc1 : b1.toNat < c1.toNat
      · simp [charListLE, Nat.lt_trans hab1 hbc1]
      · by_cases hbc2 : c1.toNat < b1.toNat
        · simp [charListLE, hbc1, hbc2] at hbc
        · have : a1.toNat < c1.toNat := by omega
          simp [charListLE, this]
    · by_cases hab2 : b1.toNat < a1.toNat
      · simp [charListLE, hab1, hab2] at hab
      · by_cases hbc1 : b1.toNat < c1.toNat
        · have : a1.toNat < c1.toNat := by omega
          simp [charListLE, this]
        · by_cases hbc2 : c1.toNat < b1.toNat
          · simp [charListLE, hbc1, hbc2] at hbc
          · have h1 : ¬a1.toNat < c1.toNat := by omega
            have h2 : ¬c1.toNat < a1.toNat := by omega
            simp only [charListLE, hab1, hab2, if_false] at hab
            simp only [charListLE, hbc1, hbc2, if_false] at hbc
            simp only [charListLE, h1, h2, if_false]
            exact charListLE_trans ra rb rc hab hbc

theorem charListLE_antisymm : ∀ a b : List Char,
    charListLE a b = true → charListLE b a = true → a = b
  | [], [], _, _ => rfl
  | [], _ :: _, _, hba => by simp [charListLE] at hba
  | _ :: _, [], hab, _ => by simp [charListLE] at hab
  | c1 :: r1, c2 :: r2, hab, hba => by
    by_cases h1 : c1.toNat < c2.toNat
    · simp [charListLE, h1, Nat.lt_asymm h1] at hba
    · by_cases h2 : c2.toNat < c1.toNat
      · simp [charListLE, h1, h2] at hab
      · have he : c1.toNat = c2.toNat := by omega
        have hc : c1 = c2 := by
          rw [← Char.ofNat_toNat c1, ← Char.ofNat_toNat c2, he]
        have hr : r1 = r2 :=
          charListLE_antisymm r1 r2
            (by simpa [charListLE, h1, h2] using hab)
            (by simpa [charListLE, h1, h2] using hba)
        rw [hc, hr]

theorem sorted_keyLT_of_nodup (l : List (String × JValue))
    (hs : l.Sorted keyLE) (hnd : (l.map Prod.fst).Nodup) : l.Sorted keyLT := by
  have hne : l.Pairwise (fun a b : String × JValue => a.1 ≠ b.1) :=
    List.pairwise_map.mp hnd
  exact hs.and hne

/-- Sorting by member name is invariant under permutation when member names
are distinct: the foundation of `sort_keys=True` determinism. -/
theorem insertionSortKey_eq (l1 l2 : List (String × JValue)) (hp : l1.Perm l2)
    (hnd : (l1.map Prod.fst).Nodup) :
    l1.insertionSort keyLE = l2.insertionSort keyLE := by
  haveI : IsTotal (String × JValue) keyLE :=
    ⟨fun a b => charListLE_total a.1.data b.1.data⟩
  haveI : IsTrans (String × JValue) keyLE :=
    ⟨fun a b c => charListLE_trans a.1.data b.1.data c.1.data⟩
  haveI : IsAntisymm (String × JValue) keyLT := by
    refine ⟨fun a b hab hba => absurd ?_ hab.2⟩
    have h := charListLE_antisymm a.1.data b.1.data hab.1 hba.1
    exact String.toList_inj.mp h
  have hnd2 : (l2.map Prod.fst).Nodup := ((hp.map Prod.fst).nodup_iff).mp hnd
  have hperm1 := List.perm_insertionSort keyLE l1
  have hperm2 := List.perm_insertionSort keyLE l2
  have hnds1 : ((l1.insertionSort keyLE).map Prod.fst).Nodup :=
    ((hperm1.map Prod.fst).nodup_iff).mpr hnd
  have hnds2 : ((l2.insertionSort keyLE).map Prod.fst).Nodup :=
    ((hperm2.map Prod.fst).nodup_iff).mpr hnd2
  exact List.eq_of_perm_of_sorted
    (hperm1.trans (hp.trans hperm2.symm))
    (sorted_keyLT_of_nodup _ (List.sorted_insertionSort keyLE l1) hnds1)
    (sorted_keyLT_of_nodup _ (List.sorted_insertionSort keyLE l2) hnds2)

/-! ### The claims -/

/-- C1: the spec requires prefix invalidation to remove every entry derived
under the `"book_search"` namespace; the code instead filters cached keys by
the literal test `key.startswith("book_search")`, but every derived key is an
MD5 hexdigest, which never starts with that text.  At the concrete failing
input below, an entry populated through `cache_book_search` survives
`invalidate_book_cache` intact and is still served by `get` — contradicting
both the spec and the code's own comment ("clear all search results"). -/
theorem C1_invalidate_book_cache_misses_search_entries :
    lookupKey c1Populated.cache c1SearchKey = some (some 7) ∧
    lookupKey c1Invalidated.cache c1SearchKey = some (some 7) ∧
    (get c1Invalidated c1SearchKey 0).1 = some 7 ∧
    strStartsWith c1SearchKey "book_search" = false := by
  decide

/-- C2 counterexample: the claim says a non-positive per-call TTL is rejected
with an error and stores nothing, and that non-positive construction
parameters are rejected.  In the code, `set` with `ttl = -1` runs to
completion and stores the entry, and the constructor accepts capacity `0` and
default TTL `-5` without complaint. -/
theorem C2_counterexample_nonpositive_ttl_accepted :
    lookupKey ((set (mkCacheService Nat 10 300) "k" (some 1) (some (-1)) 0).cache) "k" =
      some (some 1) ∧
    (mkCacheService Nat 0 (-5)).max_size = 0 ∧
    (mkCacheService Nat 0 (-5)).default_ttl = -5 := by
  decide

/-- C2 (amended): no TTL validation exists.  A per-call TTL of `0` (like
`None`) silently falls back to the default TTL because `ttl or default_ttl`
treats `0` as falsy; a negative TTL is accepted and stores an entry that is
already expired, so every later `get` returns absent; construction performs no
validation at all.  (Capacity is assumed positive: at capacity `0` CPython's
`set` would raise `StopIteration`.) -/
theorem C2_ttl_fallback_and_negative_accepted (V : Type) (s : CacheState V)
    (key : String) (v : Option V) (t now now2 : Int)
    (hneg : t < 0) (hlater : now ≤ now2) (hpos : 0 < s.max_size) :
    effectiveTTL s (some 0) = s.default_ttl ∧
    effectiveTTL s none = s.default_ttl ∧
    lookupKey (set s key v (some t) now).cache key = some v ∧
    (get (set s key v (some t) now) key now2).1 = none := by
  have h1 := (set_lookup_self s key v (some t) now).1
  have h2 := (set_lookup_self s key v (some t) now).2
  have httl : effectiveTTL s (some t) = t := by
    simp only [effectiveTTL]
    rw [if_neg (by omega)]
  refine ⟨rfl, rfl, h1, ?_⟩
  rw [httl] at h2
  simp only [get, h1, h2]
  rw [if_pos (by omega : now2 > now + t)]

/-- Witness for C2's amended theorem at a concrete input. -/
theorem C2_witness :
    ((-1 : Int) < 0 ∧ (0 : Int) ≤ (0 : Int) ∧ 0 < (mkCacheService Nat 2 300).max_size) ∧
    (effectiveTTL (mkCacheService Nat 2 300) (some 0) = (mkCacheService Nat 2 300).default_ttl ∧
     effectiveTTL (mkCacheService Nat 2 300) none = (mkCacheService Nat 2 300).default_ttl ∧
     lookupKey (set (mkCacheService Nat 2 300) "k" (some 5) (some (-1)) 0).cache "k" =
       some (some 5) ∧
     (get (set (mkCacheService Nat 2 300) "k" (some 5) (some (-1)) 0) "k" 0).1 = none) :=
  ⟨⟨by decide, by decide, by decide⟩,
   C2_ttl_fallback_and_negative_accepted Nat (mkCacheService Nat 2 300) "k" (some 5)
     (-1) 0 0 (by decide) (by decide) (by decide)⟩

/-- C3: when the supplier fails on a key absent from the cache, `get_or_set`
propagates exactly that failure, invokes the supplier once, leaves the state
untouched, and a subsequent `get` on the key still returns absent. -/
theorem C3_supplier_failure_not_cached (V E : Type) (s : CacheState V)
    (key : String) (e : E) (ttl : Option Int) (now1 now2 now3 : Int)
    (h : lookupKey s.cache key = none) :
    get_or_set s key (Except.error e) ttl now1 now2 =
      { result := Except.error e, state := s, calls := 1 } ∧
    (get s key now3).1 = none ∧ (get s key now3).2 = s := by
  have hg : ∀ t : Int, get s key t = (none, s) := by
    intro t
    simp [get, h]
  refine ⟨?_, by rw [hg now3], by rw [hg now3]⟩
  simp [get_or_set, hg now1]

/-- Witness for C3 at a concrete input. -/
theorem C3_witness :
    lookupKey (mkCacheService Nat 2 300).cache "k" = none ∧
    (get_or_set (mkCacheService Nat 2 300) "k" (Except.error "boom") none 0 0 =
       { result := Except.error "boom", state := mkCacheService Nat 2 300, calls := 1 } ∧
     (get (mkCacheService Nat 2 300) "k" 1).1 = none ∧
     (get (mkCacheService Nat 2 300) "k" 1).2 = mkCacheService Nat 2 300) :=
  ⟨by decide,
   C3_supplier_failure_not_cached Nat String (mkCacheService Nat 2 300) "k" "boom"
     none 0 0 1 (by decide)⟩

/-- C4: the store never exceeds its capacity — one `set` preserves the bound —
and a sequence of `set` calls with distinct keys from an empty cache leaves
exactly `min n capacity` entries after the `n`-th call. -/
theorem C4_capacity_invariant (V : Type) :
    (∀ (s : CacheState V) (key : String) (v : Option V) (ttl : Option Int) (now : Int),
        0 < s.max_size → s.cache.length ≤ s.max_size →
        (set s key v ttl now).cache.length ≤ s.max_size) ∧
    (∀ (cap : Nat) (dttl : Int) (items : List (String × Option V)) (now : Int) (n : Nat),
        0 < cap → (items.map Prod.fst).Nodup → n ≤ items.length →
        (setSeq (mkCacheService V cap dttl) (items.take n) now).cache.length = min n cap) := by
  constructor
  · intro s key v ttl now hpos hle
    exact set_length_le s key v ttl now hpos hle
  · intro cap dttl items now n hpos hnd hn
    have htake : ((items.take n).map Prod.fst).Nodup := by
      rw [List.map_take]
      exact hnd.sublist (List.take_sublist n _)
    have hres := setSeq_fresh_length now (items.take n) (mkCacheService V cap dttl)
      hpos (by simp [mkCacheService]) (by simp [mkCacheService])
      (fun p _ => rfl) htake
    rw [hres]
    simp only [mkCacheService, List.length_nil, Nat.zero_add, List.length_take]
    omega

/-- Witness for C4 at a concrete input. -/
theorem C4_witness :
    ((0 < (mkCacheService Nat 2 300).max_size ∧
        (mkCacheService Nat 2 300).cache.length ≤ (mkCacheService Nat 2 300).max_size) ∧
      (set (mkCacheService Nat 2 300) "a" (some 1) none 0).cache.length ≤
        (mkCacheService Nat 2 300).max_size) ∧
    ((0 < 2 ∧ ([("a", some 1), ("b", some 2), ("c", some 3)].map
        (Prod.fst (α := String) (β := Option Nat))).Nodup ∧ 3 ≤ 3) ∧
      (setSeq (mkCacheService Nat 2 300)
        ([("a", some 1), ("b", some 2), ("c", some 3)].take 3) 0).cache.length = min 3 2) :=
  ⟨⟨⟨by decide, by decide⟩,
    (C4_capacity_invariant Nat).1 (mkCacheService Nat 2 300) "a" (some 1) none 0
      (by decide) (by decide)⟩,
   ⟨⟨by decide, by decide, by decide⟩,
    (C4_capacity_invariant Nat).2 2 300 [("a", some 1), ("b", some 2), ("c", some 3)] 0 3
      (by decide) (by decide) (by decide)⟩⟩

/-- C5: eviction removes the least-recently-used entry and a successful `get`
refreshes recency: with capacity 3, after `set A, set B, set C, get A, set D`
the key `B` is gone and `A`, `C`, `D` remain (three entries in total). -/
theorem C5_lru_eviction_scenario :
    lookupKey lruScenarioState.cache "B" = none ∧
    lookupKey lruScenarioState.cache "A" = some (some 1) ∧
    lookupKey lruScenarioState.cache "C" = some (some 3) ∧
    lookupKey lruScenarioState.cache "D" = some (some 4) ∧
    lruScenarioState.cache.length = 3 := by
  decide

/-- C6: lazy expiry — a `get` on an entry whose expiry instant lies strictly
in the past removes it from both the map and the TTL bookkeeping and returns
absent, shrinking the store; and a read never returns a value whose expiry has
passed. -/
theorem C6_lazy_expiry (V : Type) :
    (∀ (s : CacheState V) (key : String) (now expiry : Int) (v : Option V),
        lookupKey s.cache key = some v →
        lookupKey s.ttl_data key = some expiry →
        expiry < now →
        get s key now = (none, { s with cache := removeKey s.cache key,
                                        ttl_data := removeKey s.ttl_data key }) ∧
        lookupKey (get s key now).2.cache key = none ∧
        lookupKey (get s key now).2.ttl_data key = none ∧
        (get s key now).2.cache.length < s.cache.length) ∧
    (∀ (s : CacheState V) (key : String) (now expiry : Int) (v : V),
        (get s key now).1 = some v →
        lookupKey s.ttl_data key = some expiry →
        now ≤ expiry) := by
  constructor
  · intro s key now expiry v hc ht hexp
    have hg : get s key now = (none, { s with cache := removeKey s.cache key,
                                              ttl_data := removeKey s.ttl_data key }) := by
      simp only [get, hc, ht]
      rw [if_pos (by omega : now > expiry)]
    refine ⟨hg, ?_, ?_, ?_⟩
    · rw [hg]
      exact lookupKey_removeKey_self _ _
    · rw [hg]
      exact lookupKey_removeKey_self _ _
    · rw [hg]
      exact length_removeKey_lt s.cache key (by rw [hc]; rfl)
  · intro s key now expiry v hv ht
    by_contra hlt
    push_neg at hlt
    cases hc : lookupKey s.cache key with
    | none => simp [get, hc] at hv
    | some w =>
      simp only [get, hc, ht] at hv
      rw [if_pos (by omega : now > expiry)] at hv
      simp at hv

/-- Witness for C6 at concrete inputs: an expired entry is purged, and a live
read implies the expiry has not passed. -/
theorem C6_witness :
    ((lookupKey ({ max_size := 2, default_ttl := 300, cache := [("k", some 1)], ttl_data := [("k", 5)] } : CacheState Nat).cache "k" = some (some 1) ∧
        (5 : Int) < 6) ∧
      lookupKey ((get ({ max_size := 2, default_ttl := 300, cache := [("k", some 1)], ttl_data := [("k", 5)] } : CacheState Nat) "k" 6).2.cache) "k" = none) ∧
    (((get ({ max_size := 2, default_ttl := 300, cache := [("k", some 7)], ttl_data := [("k", 10)] } : CacheState Nat) "k" 6).1 = some 7) ∧
      (6 : Int) ≤ 10) :=
  ⟨⟨⟨by decide, by decide⟩,
    ((C6_lazy_expiry Nat).1
      { max_size := 2, default_ttl := 300, cache := [("k", some 1)], ttl_data := [("k", 5)] }
      "k" 6 5 (some 1) (by decide) (by decide) (by decide)).2.1⟩,
   ⟨by decide,
    (C6_lazy_expiry Nat).2
      { max_size := 2, default_ttl := 300, cache := [("k", some 7)], ttl_data := [("k", 10)] }
      "k" 6 10 7 (by decide) (by decide)⟩⟩

/-- C7: key derivation is a pure, order-independent function of namespace and
parameter mapping — permuting distinct-named parameters yields the same key —
and at the spec's example changing either parameter's value changes the key. -/
theorem C7_key_determinism :
    (∀ (ns : String) (l1 l2 : List (String × JValue)),
        l1.Perm l2 → (l1.map Prod.fst).Nodup →
        generate_key ns l1 = generate_key ns l2) ∧
    generate_key "search" [("query", JValue.str "a"), ("category", JValue.str "fiction")] =
      generate_key "search" [("category", JValue.str "fiction"), ("query", JValue.str "a")] ∧
    generate_key "search" [("query", JValue.str "a"), ("category", JValue.str "fiction")] ≠
      generate_key "search" [("query", JValue.str "b"), ("category", JValue.str "fiction")] ∧
    generate_key "search" [("query", JValue.str "a"), ("category", JValue.str "fiction")] ≠
      generate_key "search" [("query", JValue.str "a"), ("category", JValue.str "thriller")] := by
  refine ⟨?_, by decide, by decide, by decide⟩
  intro ns l1 l2 hp hnd
  unfold generate_key jsonDumpsSorted
  rw [insertionSortKey_eq l1 l2 hp hnd]

/-- Witness for C7's universal part at a concrete permutation. -/
theorem C7_witness :
    ([("b", JValue.int 2), ("a", JValue.int 1)].Perm
        [("a", JValue.int 1), ("b", JValue.int 2)] ∧
      ([("b", JValue.int 2), ("a", JValue.int 1)].map Prod.fst).Nodup) ∧
    generate_key "ns" [("b", JValue.int 2), ("a", JValue.int 1)] =
      generate_key "ns" [("a", JValue.int 1), ("b", JValue.int 2)] :=
  ⟨⟨by decide, by decide⟩,
   C7_key_determinism.1 "ns" [("b", JValue.int 2), ("a", JValue.int 1)]
     [("a", JValue.int 1), ("b", JValue.int 2)] (by decide) (by decide)⟩

/-- C8: on a miss with a succeeding supplier, `get_or_set` invokes the
supplier exactly once, returns its result, and a `get` on the key before the
effective TTL elapses returns that same result.  (Capacity positive: at
capacity `0` CPython's `set` would raise `StopIteration`.) -/
theorem C8_get_or_set_single_population (V E : Type) (s : CacheState V)
    (key : String) (v : Option V) (ttl : Option Int) (now1 now2 now3 : Int)
    (h : lookupKey s.cache key = none) (hpos : 0 < s.max_size)
    (hlive : now3 ≤ now2 + effectiveTTL s ttl) :
    (get_or_set s key (Except.ok (ε := E) v) ttl now1 now2).result = Except.ok v ∧
    (get_or_set s key (Except.ok (ε := E) v) ttl now1 now2).calls = 1 ∧
    (get (get_or_set s key (Except.ok (ε := E) v) ttl now1 now2).state key now3).1 = v := by
  have hg : get s key now1 = (none, s) := by simp [get, h]
  have hgos : get_or_set s key (Except.ok (ε := E) v) ttl now1 now2 =
      { result := Except.ok v, state := set s key v ttl now2, calls := 1 } := by
    simp [get_or_set, hg]
  refine ⟨by rw [hgos], by rw [hgos], ?_⟩
  rw [hgos]
  have h1 := (set_lookup_self s key v ttl now2).1
  have h2 := (set_lookup_self s key v ttl now2).2
  simp only [get, h1, h2]
  rw [if_neg (by omega : ¬now3 > now2 + effectiveTTL s ttl)]

/-- Witness for C8 at a concrete input. -/
theorem C8_witness :
    (lookupKey (mkCacheService Nat 2 300).cache "k" = none ∧
      0 < (mkCacheService Nat 2 300).max_size ∧
      (100 : Int) ≤ 0 + effectiveTTL (mkCacheService Nat 2 300) none) ∧
    ((get_or_set (mkCacheService Nat 2 300) "k" (Except.ok (ε := Unit) (some 9))
        none 0 0).result = Except.ok (some 9) ∧
      (get_or_set (mkCacheService Nat 2 300) "k" (Except.ok (ε := Unit) (some 9))
        none 0 0).calls = 1 ∧
      (get (get_or_set (mkCacheService Nat 2 300) "k" (Except.ok (ε := Unit) (some 9))
        none 0 0).state "k" 100).1 = some 9) :=
  ⟨⟨by decide, by decide, by decide⟩,
   C8_get_or_set_single_population Nat Unit (mkCacheService Nat 2 300) "k" (some 9)
     none 0 0 100 (by decide) (by decide) (by decide)⟩

/-- C9: overwriting an existing key always succeeds, replaces that key's
entry, leaves every other entry (and its expiry) unchanged, evicts nothing,
and never grows the store — even at capacity. -/
theorem C9_overwrite_evicts_nothing (V : Type) (s : CacheState V) (key : String)
    (w v : Option V) (ttl : Option Int) (now : Int)
    (h : lookupKey s.cache key = some w) :
    lookupKey (set s key v ttl now).cache key = some v ∧
    (∀ k', k' ≠ key → lookupKey (set s key v ttl now).cache k' = lookupKey s.cache k') ∧
    (∀ k', k' ≠ key → lookupKey (set s key v ttl now).ttl_data k' = lookupKey s.ttl_data k') ∧
    (set s key v ttl now).cache.length ≤ s.cache.length := by
  have hp : (lookupKey s.cache key).isSome := by rw [h]; rfl
  rw [set_present_eq s key v ttl now hp]
  refine ⟨lookupKey_concat_self _ _ _, ?_, ?_, ?_⟩
  · intro k' hk
    rw [lookupKey_concat_ne _ _ _ _ hk, lookupKey_removeKey_ne _ _ _ hk]
  · intro k' hk
    rw [lookupKey_concat_ne _ _ _ _ hk, lookupKey_removeKey_ne _ _ _ hk]
  · have := length_removeKey_lt s.cache key hp
    simp only [List.length_append, List.length_cons, List.length_nil]
    omega

/-- Witness for C9 on a full two-entry cache. -/
theorem C9_witness :
    lookupKey ({ max_size := 2, default_ttl := 300, cache := [("a", some 1), ("b", some 2)], ttl_data := [("a", 100), ("b", 100)] } : CacheState Nat).cache "a" = some (some 1) ∧
    (lookupKey (set ({ max_size := 2, default_ttl := 300, cache := [("a", some 1), ("b", some 2)], ttl_data := [("a", 100), ("b", 100)] } : CacheState Nat) "a" (some 9) none 0).cache
        "a" = some (some 9) ∧
      lookupKey (set ({ max_size := 2, default_ttl := 300, cache := [("a", some 1), ("b", some 2)], ttl_data := [("a", 100), ("b", 100)] } : CacheState Nat) "a" (some 9) none 0).cache
        "b" = lookupKey ({ max_size := 2, default_ttl := 300, cache := [("a", some 1), ("b", some 2)], ttl_data := [("a", 100), ("b", 100)] } : CacheState Nat).cache "b" ∧
      (set ({ max_size := 2, default_ttl := 300, cache := [("a", some 1), ("b", some 2)], ttl_data := [("a", 100), ("b", 100)] } : CacheState Nat) "a" (some 9) none 0).cache.length ≤
        ({ max_size := 2, default_ttl := 300, cache := [("a", some 1), ("b", some 2)], ttl_data := [("a", 100), ("b", 100)] } : CacheState Nat).cache.length) :=
  ⟨by decide,
   (C9_overwrite_evicts_nothing Nat
      { max_size := 2, default_ttl := 300, cache := [("a", some 1), ("b", some 2)],
        ttl_data := [("a", 100), ("b", 100)] } "a" (some 1) (some 9) none 0 (by decide)).1,
   (C9_overwrite_evicts_nothing Nat
      { max_size := 2, default_ttl := 300, cache := [("a", some 1), ("b", some 2)],
        ttl_data := [("a", 100), ("b", 100)] } "a" (some 1) (some 9) none 0 (by decide)).2.1
     "b" (by decide),
   (C9_overwrite_evicts_nothing Nat
      { max_size := 2, default_ttl := 300, cache := [("a", some 1), ("b", some 2)],
        ttl_data := [("a", 100), ("b", 100)] } "a" (some 1) (some 9) none 0 (by decide)).2.2.2⟩

/-- C10: a stored Python `None` is indistinguishable from absence — `get`
returns the same absent result as for a missing key, and `get_or_set` treats
the key as a miss and invokes the supplier again, whatever the TTL state. -/
theorem C10_stored_none_is_miss (V E : Type) (s : CacheState V) (key : String)
    (now : Int) (h : lookupKey s.cache key = some none) :
    (get s key now).1 = none ∧
    ∀ (fetch : Except E (Option V)) (ttl : Option Int) (now2 : Int),
      (get_or_set s key fetch ttl now now2).calls = 1 := by
  have h1 : (get s key now).1 = none := by
    simp only [get, h]
    cases ht : lookupKey s.ttl_data key with
    | none => rfl
    | some e =>
      dsimp only
      split <;> rfl
  refine ⟨h1, ?_⟩
  intro fetch ttl now2
  rcases hg : get s key now with ⟨r, s1⟩
  have hr : r = none := by
    rw [hg] at h1
    exact h1
  subst hr
  cases fetch <;> simp [get_or_set, hg]

/-- Witness for C10 with a cached `None` under a live TTL. -/
theorem C10_witness :
    lookupKey ({ max_size := 2, default_ttl := 300, cache := [("k", none)], ttl_data := [("k", 100)] } : CacheState Nat).cache "k" = some none ∧
    ((get ({ max_size := 2, default_ttl := 300, cache := [("k", none)], ttl_data := [("k", 100)] } : CacheState Nat) "k" 0).1 = none ∧
      (get_or_set ({ max_size := 2, default_ttl := 300, cache := [("k", none)], ttl_data := [("k", 100)] } : CacheState Nat) "k"
        (Except.ok (ε := Unit) (some 5)) none 0 0).calls = 1) :=
  ⟨by decide,
   (C10_stored_none_is_miss Nat Unit
      { max_size := 2, default_ttl := 300, cache := [("k", none)], ttl_data := [("k", 100)] }
      "k" 0 (by decide)).1,
   (C10_stored_none_is_miss Nat Unit
      { max_size := 2, default_ttl := 300, cache := [("k", none)], ttl_data := [("k", 100)] }
      "k" 0 (by decide)).2 (Except.ok (some 5)) none 0⟩

end CacheSpec
